import Mathlib

/-!
# Verification of the merlin-style transcript core

This development embeds the transcript layer of the repository
(`Transcript::new` / `commit` / `challenge` and `encode_usize` from
`src/lib.rs`) together with the duplex sponge engine (`Strobe128`) it is
built on.  The engine module itself is not present under `src/`; it is
modelled from the specification (domain-separated init, framed
absorb-metadata / absorb-data / squeeze operations over a
rate-partitioned state, permutation-backed flushing at the rate
boundary).  The permutation is injected as a function parameter, as the
specification's design notes require.

Bytes are represented as natural numbers (inputs are byte values `< 256`;
the engine mixes with `Nat.xor`, which preserves that range).  The state
is a `List Nat` of width `STROBE_W`; the cursor and the operation trace
are explicit fields.  Fallible operations (length overflow in
`encode_usize`) return `Option`.
-/

/-- Rate of the sponge: bytes of state touched directly per permutation
call.  Fixed protocol constant (the 128-bit security parameter set). -/
def STROBE_R : Nat := 166

/-- Total width of the sponge state in bytes. -/
def STROBE_W : Nat := 200

/-- Embedding of `encode_usize` from `src/lib.rs`: asserts
`x < u32::max_value()` and writes `x` as a 4-byte little-endian
unsigned integer.  The assertion failure (a Rust panic) is modelled as
`none`. -/
def encode_usize (x : Nat) : Option (List Nat) :=
  if x < 4294967295 then
    some [x % 256, (x / 256) % 256, (x / 65536) % 256, (x / 16777216) % 256]
  else
    none

/-- Modelled from the spec: the operation trace records the type of the
most recently started engine operation (metadata-absorb, data-absorb or
squeeze). -/
inductive OpType where
  | metaAbsorb : OpType
  | dataAbsorb : OpType
  | squeeze : OpType
deriving DecidableEq, Repr

/-- Modelled from the spec: the duplex sponge engine state (`Strobe128`
from the missing `strobe.rs`): a `STROBE_W`-byte state buffer, a cursor
into the rate region, the operation trace, and an instrumentation
counter of permutation invocations. -/
structure Strobe128 where
  state : List Nat
  pos : Nat
  curOp : OpType
  permCount : Nat
deriving DecidableEq, Repr

/-- Modelled from the spec: the one-byte frame marker identifying the
operation type; any internally consistent injective encoding is
admissible. -/
def frameByte : OpType → Nat
  | OpType.metaAbsorb => 1
  | OpType.dataAbsorb => 2
  | OpType.squeeze => 3

/-- Modelled from the spec: run the injected permutation over the whole
state and reset the cursor to the start of the rate region. -/
def runF (f : List Nat → List Nat) (s : Strobe128) : Strobe128 :=
  { state := f s.state, pos := 0, curOp := s.curOp, permCount := s.permCount + 1 }

/-- Modelled from the spec: absorb a single byte into the rate region at
the cursor (mixing by xor), advancing the cursor and invoking the
permutation when the cursor reaches the rate boundary. -/
def absorbByte (f : List Nat → List Nat) (s : Strobe128) (b : Nat) : Strobe128 :=
  let st := s.state.set s.pos (Nat.xor (s.state.getD s.pos 0) b)
  if s.pos + 1 = STROBE_R then
    runF f { s with state := st }
  else
    { s with state := st, pos := s.pos + 1 }

/-- Modelled from the spec: absorb a byte string, byte by byte; the
permutation may be invoked several times within one call for long
inputs. -/
def absorbBytes (f : List Nat → List Nat) (s : Strobe128) : List Nat → Strobe128
  | [] => s
  | b :: bs => absorbBytes f (absorbByte f s b) bs

/-- Modelled from the spec: squeeze a single byte: copy it out of the
rate region, overwrite the consumed position with zero, advance the
cursor, and invoke the permutation at the rate boundary. -/
def squeezeByte (f : List Nat → List Nat) (s : Strobe128) : Strobe128 × Nat :=
  let b := s.state.getD s.pos 0
  let st := s.state.set s.pos 0
  (if s.pos + 1 = STROBE_R then
    runF f { s with state := st }
  else
    { s with state := st, pos := s.pos + 1 }, b)

/-- Modelled from the spec: squeeze `n` output bytes, wrapping through
the permutation whenever the rate boundary is reached. -/
def squeezeBytes (f : List Nat → List Nat) (s : Strobe128) : Nat → Strobe128 × List Nat
  | 0 => (s, [])
  | n + 1 =>
    let p := squeezeByte f s
    let q := squeezeBytes f p.1 n
    (q.1, p.2 :: q.2)

/-- Modelled from the spec: begin a fresh absorb run of type `op`: if
this is a direction change from a previous squeeze the buffer is flushed
through the permutation first, then the frame byte of `op` is mixed into
the state ahead of the payload and the operation trace is updated. -/
def beginAbsorb (f : List Nat → List Nat) (op : OpType) (s : Strobe128) : Strobe128 :=
  let s1 := if s.curOp = OpType.squeeze then runF f s else s
  absorbBytes f { s1 with curOp := op } [frameByte op]

/-- Modelled from the spec: `meta_ad(data, more)` — absorb metadata
bytes; when `more` is false a new framed metadata run begins, when
`more` is true the bytes continue the current run with no new frame. -/
def Strobe128.meta_ad (s : Strobe128) (f : List Nat → List Nat)
    (data : List Nat) (more : Bool) : Strobe128 :=
  let s1 := if more then s else beginAbsorb f OpType.metaAbsorb s
  absorbBytes f s1 data

/-- Modelled from the spec: `ad(data, more)` — absorb message data
bytes, framed separately from metadata. -/
def Strobe128.ad (s : Strobe128) (f : List Nat → List Nat)
    (data : List Nat) (more : Bool) : Strobe128 :=
  let s1 := if more then s else beginAbsorb f OpType.dataAbsorb s
  absorbBytes f s1 data

/-- Modelled from the spec: `prf(n, more)` — squeeze `n` pseudorandom
bytes.  When `more` is false a fresh framed squeeze run begins and the
permutation is forced once before any bytes are read; when `more` is
true the squeeze continues the current run. -/
def Strobe128.prf (s : Strobe128) (f : List Nat → List Nat)
    (n : Nat) (more : Bool) : Strobe128 × List Nat :=
  let s1 :=
    if more then s
    else runF f (absorbBytes f { s with curOp := OpType.squeeze }
      [frameByte OpType.squeeze])
  squeezeBytes f s1 n

/-- Modelled from the spec: the fixed protocol-version constant used to
seed the initial state. -/
def protocolConst : List Nat := [1, 168, 1, 0, 1, 96]

/-- Pad a byte string with zeros up to length `n`. -/
def padTo (n : Nat) (l : List Nat) : List Nat :=
  l ++ List.replicate (n - l.length) 0

/-- Modelled from the spec: `Strobe128::new(label)` — seed the state
deterministically from the fixed protocol-version constant via the
permutation, then perform an internal metadata-absorb of the label. -/
def Strobe128.new (f : List Nat → List Nat) (label : List Nat) : Strobe128 :=
  let s0 : Strobe128 :=
    { state := f (padTo STROBE_W protocolConst), pos := 0,
      curOp := OpType.metaAbsorb, permCount := 1 }
  s0.meta_ad f label false

/-- Embedding of `Transcript` from `src/lib.rs`: owns exactly one
`Strobe128` engine state. -/
structure Transcript where
  strobe : Strobe128
deriving DecidableEq, Repr

/-- Embedding of `Transcript::new(label)` from `src/lib.rs`. -/
def Transcript.new (f : List Nat → List Nat) (label : List Nat) : Transcript :=
  { strobe := Strobe128.new f label }

/-- Embedding of `Transcript::commit(label, message)` from `src/lib.rs`:
first computes the 4-byte little-endian length encoding (panicking —
`none` — on overflow, before any engine call), then performs
`meta_ad(label, false)`, `meta_ad(data_len, true)`, `ad(message, false)`. -/
def Transcript.commit (t : Transcript) (f : List Nat → List Nat)
    (label message : List Nat) : Option Transcript :=
  match encode_usize message.length with
  | none => none
  | some data_len =>
    some
      { strobe :=
          Strobe128.ad ((t.strobe.meta_ad f label false).meta_ad f data_len true)
            f message false }

/-- Embedding of `Transcript::challenge(label, challenge_bytes)` from
`src/lib.rs`: first computes the 4-byte little-endian length encoding of
the output buffer (panicking — `none` — on overflow, before any engine
call), then performs `meta_ad(label, false)`, `meta_ad(data_len, true)`,
`prf(challenge_bytes, false)`; the returned byte list is the filled
buffer. -/
def Transcript.challenge (t : Transcript) (f : List Nat → List Nat)
    (label : List Nat) (n : Nat) : Option (Transcript × List Nat) :=
  match encode_usize n with
  | none => none
  | some data_len =>
    let p := ((t.strobe.meta_ad f label false).meta_ad f data_len true).prf f n false
    some ({ strobe := p.1 }, p.2)

/-- `#[derive(Clone)]` on `Transcript`: a memberwise deep copy of the
whole engine state (buffer, cursor, operation trace, counter). -/
def Transcript.clone (t : Transcript) : Transcript :=
  { strobe :=
    { state := t.strobe.state, pos := t.strobe.pos,
      curOp := t.strobe.curOp, permCount := t.strobe.permCount } }

/-- A primitive engine call, as issued by the transcript layer: the
arguments of one `meta_ad`, `ad` or `prf` invocation. -/
inductive EngineCall where
  | metaAD : List Nat → Bool → EngineCall
  | aD : List Nat → Bool → EngineCall
  | prfCall : Nat → Bool → EngineCall
deriving DecidableEq, Repr

/-- Interpret one engine call on an engine state, returning the new
state and any squeezed output bytes. -/
def execCall (f : List Nat → List Nat) (s : Strobe128) :
    EngineCall → Strobe128 × List Nat
  | EngineCall.metaAD d m => (s.meta_ad f d m, [])
  | EngineCall.aD d m => (s.ad f d m, [])
  | EngineCall.prfCall n m => s.prf f n m

/-- Interpret a sequence of engine calls, concatenating all squeezed
output. -/
def execCalls (f : List Nat → List Nat) (s : Strobe128) :
    List EngineCall → Strobe128 × List Nat
  | [] => (s, [])
  | c :: cs =>
    let p := execCall f s c
    let q := execCalls f p.1 cs
    (q.1, p.2 ++ q.2)

/-- The engine-call sequence `commit` issues: empty (no engine call at
all) when the length check fails, otherwise exactly the three framed
calls. -/
def commitCalls (label message : List Nat) : List EngineCall :=
  match encode_usize message.length with
  | none => []
  | some data_len =>
    [EngineCall.metaAD label false, EngineCall.metaAD data_len true,
     EngineCall.aD message false]

/-- The engine-call sequence `challenge` issues: empty (no engine call
at all) when the length check fails, otherwise exactly the three framed
calls. -/
def challengeCalls (label : List Nat) (n : Nat) : List EngineCall :=
  match encode_usize n with
  | none => []
  | some data_len =>
    [EngineCall.metaAD label false, EngineCall.metaAD data_len true,
     EngineCall.prfCall n false]

/-- One step of a consumer-driven transcript session: a commit of a
labelled message or a labelled challenge request of a given length. -/
inductive ScriptOp where
  | commitOp : List Nat → List Nat → ScriptOp
  | challengeOp : List Nat → Nat → ScriptOp
deriving DecidableEq, Repr

/-- Drive a transcript through an ordered sequence of commit/challenge
calls, collecting the challenge byte sequences in order; `none` if any
call aborts. -/
def runScript (f : List Nat → List Nat) (t : Transcript) :
    List ScriptOp → Option (Transcript × List (List Nat))
  | [] => some (t, [])
  | ScriptOp.commitOp l m :: rest =>
    match t.commit f l m with
    | none => none
    | some t1 => runScript f t1 rest
  | ScriptOp.challengeOp l n :: rest =>
    match t.challenge f l n with
    | none => none
    | some p =>
      match runScript f p.1 rest with
      | none => none
      | some q => some (q.1, p.2 :: q.2)

/-- The challenge byte sequences produced by a freshly constructed
transcript with the given initialization label, driven by the given
call sequence: a function of the label and the call history only. -/
def transcriptOutputs (f : List Nat → List Nat) (label : List Nat)
    (ops : List ScriptOp) : Option (List (List Nat)) :=
  (runScript f (Transcript.new f label) ops).map Prod.snd

/-! ## Helper lemmas about the engine -/

theorem absorbBytes_append (f : List Nat → List Nat) (l1 l2 : List Nat) :
    ∀ s : Strobe128, absorbBytes f s (l1 ++ l2) = absorbBytes f (absorbBytes f s l1) l2 := by
  induction l1 with
  | nil => intro s; rfl
  | cons b bs ih => intro s; simp only [List.cons_append, absorbBytes]; exact ih _

theorem foldl_absorbBytes (f : List Nat → List Nat) (cs : List (List Nat)) :
    ∀ s : Strobe128,
      cs.foldl (fun a d => absorbBytes f a d) s = absorbBytes f s cs.flatten := by
  induction cs with
  | nil => intro s; rfl
  | cons c cs ih =>
    intro s
    simp only [List.foldl_cons, List.flatten_cons]
    rw [ih, absorbBytes_append]

theorem squeezeBytes_length (f : List Nat → List Nat) :
    ∀ (n : Nat) (s : Strobe128), ((squeezeBytes f s n).2).length = n := by
  intro n
  induction n with
  | zero => intro s; rfl
  | succ n ih => intro s; simp only [squeezeBytes, List.length_cons, ih]

theorem absorbByte_curOp (f : List Nat → List Nat) (s : Strobe128) (b : Nat) :
    (absorbByte f s b).curOp = s.curOp := by
  simp only [absorbByte, runF]
  split <;> rfl

theorem absorbBytes_curOp (f : List Nat → List Nat) (l : List Nat) :
    ∀ s : Strobe128, (absorbBytes f s l).curOp = s.curOp := by
  induction l with
  | nil => intro s; rfl
  | cons b bs ih => intro s; simp only [absorbBytes]; rw [ih, absorbByte_curOp]

/-- Measure combining the permutation counter and the cursor: each
absorbed byte advances it by exactly one (a rate-boundary wrap trades
`STROBE_R` cursor positions for one permutation invocation). -/
def rateMeasure (s : Strobe128) : Nat := STROBE_R * s.permCount + s.pos

theorem absorbByte_rateMeasure (f : List Nat → List Nat) (s : Strobe128) (b : Nat) :
    rateMeasure (absorbByte f s b) = rateMeasure s + 1 := by
  simp only [absorbByte, runF, rateMeasure, STROBE_R]
  split <;> simp_all <;> omega

theorem absorbBytes_rateMeasure (f : List Nat → List Nat) (l : List Nat) :
    ∀ s : Strobe128, rateMeasure (absorbBytes f s l) = rateMeasure s + l.length := by
  induction l with
  | nil => intro s; rfl
  | cons b bs ih =>
    intro s
    simp only [absorbBytes, List.length_cons]
    rw [ih, absorbByte_rateMeasure]
    omega

theorem absorbByte_permCount (f : List Nat → List Nat) (s : Strobe128) (b : Nat) :
    s.permCount ≤ (absorbByte f s b).permCount ∧
      (absorbByte f s b).permCount ≤ s.permCount + 1 := by
  simp only [absorbByte, runF]
  split <;> simp <;> omega

theorem absorbBytes_permCount (f : List Nat → List Nat) (l : List Nat) :
    ∀ s : Strobe128, s.permCount ≤ (absorbBytes f s l).permCount ∧
      (absorbBytes f s l).permCount ≤ s.permCount + l.length := by
  induction l with
  | nil => intro s; exact ⟨Nat.le_refl _, Nat.le_refl _⟩
  | cons b bs ih =>
    intro s
    have h1 := absorbByte_permCount f s b
    have h2 := ih (absorbByte f s b)
    simp only [absorbBytes, List.length_cons]
    omega

theorem squeezeBytes_permCount (f : List Nat → List Nat) :
    ∀ (n : Nat) (s : Strobe128), s.permCount ≤ ((squeezeBytes f s n).1).permCount ∧
      ((squeezeBytes f s n).1).permCount ≤ s.permCount + n := by
  intro n
  induction n with
  | zero => intro s; exact ⟨Nat.le_refl _, Nat.le_refl _⟩
  | succ n ih =>
    intro s
    have h1 : s.permCount ≤ (squeezeByte f s).1.permCount ∧
        (squeezeByte f s).1.permCount ≤ s.permCount + 1 := by
      simp only [squeezeByte, runF]
      split <;> simp <;> omega
    have h2 := ih (squeezeByte f s).1
    simp only [squeezeBytes]
    omega

theorem beginAbsorb_permCount (f : List Nat → List Nat) (op : OpType) (s : Strobe128) :
    s.permCount ≤ (beginAbsorb f op s).permCount ∧
      (beginAbsorb f op s).permCount ≤ s.permCount + 2 := by
  simp only [beginAbsorb]
  split
  · have h := absorbBytes_permCount f [frameByte op] { runF f s with curOp := op }
    simp only [runF] at h ⊢
    simp at h
    omega
  · have h := absorbBytes_permCount f [frameByte op] { s with curOp := op }
    simp at h
    omega

/-! ## Claims -/

/-- C1: For every initialization label and every fixed ordered sequence
of commit/challenge calls with fixed arguments, two independently
constructed Transcripts driven by that same sequence produce identical
challenge byte sequences; the output is a function only of the label and
the prior call history (the embedding takes no other input and has no
entropy source). -/
theorem transcript_determinism (f : List Nat → List Nat) (label : List Nat)
    (ops : List ScriptOp) (t1 t2 : Transcript)
    (h1 : t1 = Transcript.new f label) (h2 : t2 = Transcript.new f label) :
    runScript f t1 ops = runScript f t2 ops ∧
      (runScript f t1 ops).map Prod.snd = transcriptOutputs f label ops := by
  subst h1
  subst h2
  exact ⟨rfl, rfl⟩

/-- Witness for C1 at concrete inputs. -/
theorem transcript_determinism_witness :
    runScript id (Transcript.new id [1]) [ScriptOp.challengeOp [2] 3] =
        runScript id (Transcript.new id [1]) [ScriptOp.challengeOp [2] 3] ∧
      (runScript id (Transcript.new id [1]) [ScriptOp.challengeOp [2] 3]).map Prod.snd =
        transcriptOutputs id [1] [ScriptOp.challengeOp [2] 3] :=
  transcript_determinism id [1] [ScriptOp.challengeOp [2] 3]
    (Transcript.new id [1]) (Transcript.new id [1]) rfl rfl

/-- C2: For every label and every message of valid length,
`commit(label, message)` performs exactly the engine-call sequence
`meta_ad(label, false)`, `meta_ad(le32(message.length), true)`,
`ad(message, false)`, in that order and nothing else: the resulting
state is the interpretation of exactly that three-call list, and the
issued call list is exactly that list. -/
theorem commit_call_sequence (f : List Nat → List Nat) (t : Transcript)
    (label message : List Nat) (h : message.length < 4294967295) :
    t.commit f label message =
      some { strobe := (execCalls f t.strobe
        [EngineCall.metaAD label false,
         EngineCall.metaAD [message.length % 256, (message.length / 256) % 256,
           (message.length / 65536) % 256, (message.length / 16777216) % 256] true,
         EngineCall.aD message false]).1 } ∧
    commitCalls label message =
      [EngineCall.metaAD label false,
       EngineCall.metaAD [message.length % 256, (message.length / 256) % 256,
         (message.length / 65536) % 256, (message.length / 16777216) % 256] true,
       EngineCall.aD message false] := by
  constructor
  · simp [Transcript.commit, encode_usize, h, execCalls, execCall]
  · simp [commitCalls, encode_usize, h]

/-- Witness for C2 at concrete inputs. -/
theorem commit_call_sequence_witness :
    Transcript.commit (Transcript.new id [1]) id [2] [3, 4] =
      some { strobe := (execCalls id (Transcript.new id [1]).strobe
        [EngineCall.metaAD [2] false,
         EngineCall.metaAD [(2:Nat) % 256, ((2:Nat) / 256) % 256,
           ((2:Nat) / 65536) % 256, ((2:Nat) / 16777216) % 256] true,
         EngineCall.aD [3, 4] false]).1 } ∧
    commitCalls [2] [3, 4] =
      [EngineCall.metaAD [2] false,
       EngineCall.metaAD [(2:Nat) % 256, ((2:Nat) / 256) % 256,
         ((2:Nat) / 65536) % 256, ((2:Nat) / 16777216) % 256] true,
       EngineCall.aD [3, 4] false] :=
  commit_call_sequence id (Transcript.new id [1]) [2] [3, 4] (by decide)

/-- C3: For every label and every valid output-buffer length,
`challenge(label, buf)` performs exactly `meta_ad(label, false)`,
`meta_ad(le32(buf.length), true)`, `prf(buf, false)`: the resulting
state and output are the interpretation of exactly that three-call
list, and the entire buffer is filled (the output has exactly the
requested length). -/
theorem challenge_call_sequence (f : List Nat → List Nat) (t : Transcript)
    (label : List Nat) (n : Nat) (h : n < 4294967295) :
    t.challenge f label n =
      some ({ strobe := (execCalls f t.strobe
          [EngineCall.metaAD label false,
           EngineCall.metaAD [n % 256, (n / 256) % 256,
             (n / 65536) % 256, (n / 16777216) % 256] true,
           EngineCall.prfCall n false]).1 },
        (execCalls f t.strobe
          [EngineCall.metaAD label false,
           EngineCall.metaAD [n % 256, (n / 256) % 256,
             (n / 65536) % 256, (n / 16777216) % 256] true,
           EngineCall.prfCall n false]).2) ∧
    challengeCalls label n =
      [EngineCall.metaAD label false,
       EngineCall.metaAD [n % 256, (n / 256) % 256,
         (n / 65536) % 256, (n / 16777216) % 256] true,
       EngineCall.prfCall n false] ∧
    (t.challenge f label n).map (fun p => p.2.length) = some n := by
  refine ⟨?_, ?_, ?_⟩
  · simp [Transcript.challenge, encode_usize, h, execCalls, execCall]
  · simp [challengeCalls, encode_usize, h]
  · simp [Transcript.challenge, encode_usize, h, Strobe128.prf, squeezeBytes_length]

/-- Witness for C3 at concrete inputs. -/
theorem challenge_call_sequence_witness :
    Transcript.challenge (Transcript.new id [1]) id [2] 3 =
      some ({ strobe := (execCalls id (Transcript.new id [1]).strobe
          [EngineCall.metaAD [2] false,
           EngineCall.metaAD [(3:Nat) % 256, ((3:Nat) / 256) % 256,
             ((3:Nat) / 65536) % 256, ((3:Nat) / 16777216) % 256] true,
           EngineCall.prfCall 3 false]).1 },
        (execCalls id (Transcript.new id [1]).strobe
          [EngineCall.metaAD [2] false,
           EngineCall.metaAD [(3:Nat) % 256, ((3:Nat) / 256) % 256,
             ((3:Nat) / 65536) % 256, ((3:Nat) / 16777216) % 256] true,
           EngineCall.prfCall 3 false]).2) ∧
    challengeCalls [2] 3 =
      [EngineCall.metaAD [2] false,
       EngineCall.metaAD [(3:Nat) % 256, ((3:Nat) / 256) % 256,
         ((3:Nat) / 65536) % 256, ((3:Nat) / 16777216) % 256] true,
       EngineCall.prfCall 3 false] ∧
    (Transcript.challenge (Transcript.new id [1]) id [2] 3).map
        (fun p => p.2.length) = some 3 :=
  challenge_call_sequence id (Transcript.new id [1]) [2] 3 (by decide)

theorem commit_overflow_none (f : List Nat → List Nat) (t : Transcript)
    (label message : List Nat) (h : ¬ message.length < 4294967295) :
    t.commit f label message = none := by
  simp [Transcript.commit, encode_usize, h]

theorem challenge_overflow_none (f : List Nat → List Nat) (t : Transcript)
    (label : List Nat) (n : Nat) (h : ¬ n < 4294967295) :
    t.challenge f label n = none := by
  simp [Transcript.challenge, encode_usize, h]

/-- C4 counterexample: the length `2^32 - 1 = 4294967295` lies in the
claimed valid range `[0, 2^32)`, yet `encode_usize` rejects it (the
source asserts `x < u32::max_value()`, a strict bound), so commit and
challenge abort on it. -/
theorem length_range_cex :
    (4294967295 : Nat) < 4294967296 ∧
      encode_usize 4294967295 = none ∧
      Transcript.commit (Transcript.new id []) id []
        (List.replicate 4294967295 0) = none ∧
      Transcript.challenge (Transcript.new id []) id [] 4294967295 = none := by
  have he : encode_usize 4294967295 = none := by
    simp [encode_usize]
  refine ⟨by norm_num, he, ?_, ?_⟩
  · exact commit_overflow_none id (Transcript.new id []) []
      (List.replicate 4294967295 0)
      (by rw [List.length_replicate]; exact Nat.lt_irrefl 4294967295)
  · exact challenge_overflow_none id (Transcript.new id []) [] 4294967295
      (Nat.lt_irrefl 4294967295)

/-- C4 (amended): the valid length range is `[0, 2^32 - 1)`: commit and
challenge accept a length exactly when it is `< 2^32 - 1`, in which case
it is encoded as a 4-byte little-endian unsigned integer; lengths
`≥ 2^32 - 1` (in particular all lengths `≥ 2^32`) are rejected. -/
theorem length_valid_range (f : List Nat → List Nat) (t : Transcript)
    (label message : List Nat) :
    ((∃ t1, t.commit f label message = some t1) ↔ message.length < 4294967295) ∧
    ((∃ p, t.challenge f label message.length = some p) ↔
      message.length < 4294967295) ∧
    encode_usize message.length =
      (if message.length < 4294967295 then
        some [message.length % 256, (message.length / 256) % 256,
          (message.length / 65536) % 256, (message.length / 16777216) % 256]
      else none) := by
  by_cases hm : message.length < 4294967295 <;>
    simp [Transcript.commit, Transcript.challenge, encode_usize, hm]

/-- C5: invoking commit or challenge with a length of at least `2^32`
aborts before any engine mutation is observable: the call returns no
mutated transcript and the issued engine-call list is empty, so the
transcript state is exactly what it was before the call. -/
theorem overflow_aborts (f : List Nat → List Nat) (t : Transcript)
    (label message : List Nat) (n : Nat)
    (hm : 4294967296 ≤ message.length) (hn : 4294967296 ≤ n) :
    t.commit f label message = none ∧ commitCalls label message = [] ∧
      t.challenge f label n = none ∧ challengeCalls label n = [] := by
  have h1 : ¬ message.length < 4294967295 := by omega
  have h2 : ¬ n < 4294967295 := by omega
  refine ⟨?_, ?_, ?_, ?_⟩ <;>
    simp [Transcript.commit, Transcript.challenge, commitCalls, challengeCalls,
      encode_usize, h1, h2]

/-- Witness for C5 at concrete inputs. -/
theorem overflow_aborts_witness :
    Transcript.commit (Transcript.new id []) id []
        (List.replicate 4294967296 0) = none ∧
      commitCalls [] (List.replicate 4294967296 0) = [] ∧
      Transcript.challenge (Transcript.new id []) id [] 4294967296 = none ∧
      challengeCalls [] 4294967296 = [] :=
  overflow_aborts id (Transcript.new id []) [] (List.replicate 4294967296 0)
    4294967296
    (by rw [List.length_replicate])
    (Nat.le_refl 4294967296)

theorem ad_false (s : Strobe128) (f : List Nat → List Nat) (d : List Nat) :
    s.ad f d false = absorbBytes f (beginAbsorb f OpType.dataAbsorb s) d := rfl

theorem ad_true (s : Strobe128) (f : List Nat → List Nat) (d : List Nat) :
    s.ad f d true = absorbBytes f s d := rfl

theorem meta_ad_false (s : Strobe128) (f : List Nat → List Nat) (d : List Nat) :
    s.meta_ad f d false = absorbBytes f (beginAbsorb f OpType.metaAbsorb s) d := rfl

theorem meta_ad_true (s : Strobe128) (f : List Nat → List Nat) (d : List Nat) :
    s.meta_ad f d true = absorbBytes f s d := rfl

/-- C6: at the engine layer, absorbing a byte string in one call with
continuation=false yields the same engine state — and hence the same
all-subsequent outputs — as absorbing any partition of it across
multiple calls where only the first call has continuation=false and
every following call has continuation=true.  Stated for both `ad` and
`meta_ad`. -/
theorem chunking_equivalence (f : List Nat → List Nat) (s : Strobe128)
    (c : List Nat) (cs : List (List Nat)) :
    (cs.foldl (fun a d => a.ad f d true) (s.ad f c false) =
      s.ad f (c :: cs).flatten false) ∧
    (cs.foldl (fun a d => a.meta_ad f d true) (s.meta_ad f c false) =
      s.meta_ad f (c :: cs).flatten false) ∧
    (∀ rest : List EngineCall,
      execCalls f (cs.foldl (fun a d => a.ad f d true) (s.ad f c false)) rest =
        execCalls f (s.ad f (c :: cs).flatten false) rest) := by
  have h1 : cs.foldl (fun a d => a.ad f d true) (s.ad f c false) =
      s.ad f (c :: cs).flatten false := by
    simp only [ad_true, ad_false, List.flatten_cons]
    rw [foldl_absorbBytes, absorbBytes_append]
  have h2 : cs.foldl (fun a d => a.meta_ad f d true) (s.meta_ad f c false) =
      s.meta_ad f (c :: cs).flatten false := by
    simp only [meta_ad_true, meta_ad_false, List.flatten_cons]
    rw [foldl_absorbBytes, absorbBytes_append]
  exact ⟨h1, h2, fun rest => by rw [h1]⟩

/-- C7: duplicating a Transcript (the derived `Clone`) produces an
independent deep copy of the entire state: the copy carries the whole
buffer, cursor and operation trace of the original, and driving the
copy through any sequence of commit/challenge mutations produces new
transcript values while the original value is left unchanged (in this
pure embedding, running a script on the copy is the same as running it
on the original, and neither run can alter the original). -/
theorem clone_independent (f : List Nat → List Nat) (t : Transcript)
    (ops : List ScriptOp) :
    t.clone = t ∧ runScript f t.clone ops = runScript f t ops := by
  have h : t.clone = t := rfl
  exact ⟨h, by rw [h]⟩

theorem meta_ad_permCount (f : List Nat → List Nat) (s : Strobe128)
    (data : List Nat) (more : Bool) :
    (Strobe128.meta_ad s f data more).permCount ≤ s.permCount + data.length + 2 := by
  cases more with
  | true =>
    have h := absorbBytes_permCount f data s
    show (absorbBytes f s data).permCount ≤ _
    omega
  | false =>
    have h1 := beginAbsorb_permCount f OpType.metaAbsorb s
    have h2 := absorbBytes_permCount f data (beginAbsorb f OpType.metaAbsorb s)
    show (absorbBytes f (beginAbsorb f OpType.metaAbsorb s) data).permCount ≤ _
    omega

theorem ad_permCount (f : List Nat → List Nat) (s : Strobe128)
    (data : List Nat) (more : Bool) :
    (Strobe128.ad s f data more).permCount ≤ s.permCount + data.length + 2 := by
  cases more with
  | true =>
    have h := absorbBytes_permCount f data s
    show (absorbBytes f s data).permCount ≤ _
    omega
  | false =>
    have h1 := beginAbsorb_permCount f OpType.dataAbsorb s
    have h2 := absorbBytes_permCount f data (beginAbsorb f OpType.dataAbsorb s)
    show (absorbBytes f (beginAbsorb f OpType.dataAbsorb s) data).permCount ≤ _
    omega

theorem prf_permCount (f : List Nat → List Nat) (s : Strobe128)
    (n : Nat) (more : Bool) :
    ((Strobe128.prf s f n more).1).permCount ≤ s.permCount + n + 2 := by
  cases more with
  | true =>
    have h := squeezeBytes_permCount f n s
    show ((squeezeBytes f s n).1).permCount ≤ _
    omega
  | false =>
    have h1 := absorbBytes_permCount f [frameByte OpType.squeeze]
      { s with curOp := OpType.squeeze }
    have h2 := squeezeBytes_permCount f n
      (runF f (absorbBytes f { s with curOp := OpType.squeeze }
        [frameByte OpType.squeeze]))
    show ((squeezeBytes f (runF f (absorbBytes f { s with curOp := OpType.squeeze }
      [frameByte OpType.squeeze])) n).1).permCount ≤ _
    have h3 : (runF f (absorbBytes f { s with curOp := OpType.squeeze }
        [frameByte OpType.squeeze])).permCount =
        (absorbBytes f { s with curOp := OpType.squeeze }
          [frameByte OpType.squeeze]).permCount + 1 := rfl
    simp only [h3] at h2
    simp only [List.length_cons, List.length_nil] at h1
    omega

theorem prf_output_length (f : List Nat → List Nat) (s : Strobe128)
    (n : Nat) (more : Bool) : ((Strobe128.prf s f n more).2).length = n := by
  cases more with
  | true => exact squeezeBytes_length f n s
  | false => exact squeezeBytes_length f n _

/-- C8: `new`, `commit` and `challenge` are total on inputs satisfying
the length precondition: the embedded functions are total Lean
functions, every such call succeeds, and the number of permutation
invocations it performs is bounded by the number of bytes processed
plus a constant for the frame markers and flushes (so no call can loop
forever). -/
theorem operations_total (f : List Nat → List Nat) (t : Transcript)
    (label message : List Nat) (n : Nat)
    (hm : message.length < 4294967295) (hn : n < 4294967295) :
    (∃ t1, t.commit f label message = some t1 ∧
      t1.strobe.permCount ≤
        t.strobe.permCount + label.length + message.length + 10) ∧
    (∃ p, t.challenge f label n = some p ∧
      p.1.strobe.permCount ≤ t.strobe.permCount + label.length + n + 10 ∧
      p.2.length = n) := by
  constructor
  · have hc : t.commit f label message =
        some { strobe := Strobe128.ad ((Strobe128.meta_ad t.strobe f label
          false).meta_ad f [message.length % 256, (message.length / 256) % 256,
            (message.length / 65536) % 256, (message.length / 16777216) % 256]
          true) f message false } := by
      simp [Transcript.commit, encode_usize, hm]
    refine ⟨_, hc, ?_⟩
    have b1 := meta_ad_permCount f t.strobe label false
    have b2 := meta_ad_permCount f (Strobe128.meta_ad t.strobe f label false)
      [message.length % 256, (message.length / 256) % 256,
        (message.length / 65536) % 256, (message.length / 16777216) % 256] true
    have b3 := ad_permCount f ((Strobe128.meta_ad t.strobe f label
      false).meta_ad f [message.length % 256, (message.length / 256) % 256,
        (message.length / 65536) % 256, (message.length / 16777216) % 256]
      true) message false
    simp only [List.length_cons, List.length_nil] at b2
    dsimp only
    omega
  · have hc : t.challenge f label n =
        some ({ strobe := (Strobe128.prf ((Strobe128.meta_ad t.strobe f label
            false).meta_ad f [n % 256, (n / 256) % 256, (n / 65536) % 256,
              (n / 16777216) % 256] true) f n false).1 },
          (Strobe128.prf ((Strobe128.meta_ad t.strobe f label false).meta_ad f
            [n % 256, (n / 256) % 256, (n / 65536) % 256, (n / 16777216) % 256]
            true) f n false).2) := by
      simp [Transcript.challenge, encode_usize, hn]
    refine ⟨_, hc, ?_, ?_⟩
    · have b1 := meta_ad_permCount f t.strobe label false
      have b2 := meta_ad_permCount f (Strobe128.meta_ad t.strobe f label false)
        [n % 256, (n / 256) % 256, (n / 65536) % 256, (n / 16777216) % 256] true
      have b3 := prf_permCount f ((Strobe128.meta_ad t.strobe f label
        false).meta_ad f [n % 256, (n / 256) % 256, (n / 65536) % 256,
          (n / 16777216) % 256] true) n false
      simp only [List.length_cons, List.length_nil] at b2
      dsimp only
      omega
    · exact prf_output_length f _ n false

/-- Witness for C8 at concrete inputs. -/
theorem operations_total_witness :
    (∃ t1, Transcript.commit (Transcript.new id [1]) id [2] [3] = some t1 ∧
      t1.strobe.permCount ≤
        (Transcript.new id [1]).strobe.permCount + [(2 : Nat)].length +
          [(3 : Nat)].length + 10) ∧
    (∃ p, Transcript.challenge (Transcript.new id [1]) id [2] 3 = some p ∧
      p.1.strobe.permCount ≤
        (Transcript.new id [1]).strobe.permCount + [(2 : Nat)].length + 3 + 10 ∧
      p.2.length = 3) :=
  operations_total id (Transcript.new id [1]) [2] [3] 3 (by decide) (by decide)

/-- Little-endian 32-bit decoding of a 4-byte string. -/
def decode_le32 (bs : List Nat) : Nat :=
  bs.getD 0 0 + 256 * bs.getD 1 0 + 65536 * bs.getD 2 0 + 16777216 * bs.getD 3 0

/-- C9: the 4-byte length encoding is injective on the lengths the
implementation accepts: two distinct accepted lengths have distinct
encodings; equivalently, the encoding round-trips through little-endian
32-bit decoding. -/
theorem encode_usize_injective (x y : Nat)
    (hx : x < 4294967295) (hy : y < 4294967295)
    (hxy : encode_usize x = encode_usize y) :
    x = y ∧ ∀ bs, encode_usize x = some bs → decode_le32 bs = x := by
  have h1 : encode_usize x = some [x % 256, (x / 256) % 256,
      (x / 65536) % 256, (x / 16777216) % 256] := by
    simp [encode_usize, hx]
  have h2 : encode_usize y = some [y % 256, (y / 256) % 256,
      (y / 65536) % 256, (y / 16777216) % 256] := by
    simp [encode_usize, hy]
  constructor
  · rw [h1, h2] at hxy
    simp only [Option.some.injEq, List.cons.injEq, and_true] at hxy
    omega
  · intro bs hbs
    rw [h1] at hbs
    simp only [Option.some.injEq] at hbs
    subst hbs
    have hd : decode_le32 [x % 256, (x / 256) % 256, (x / 65536) % 256,
        (x / 16777216) % 256] =
        x % 256 + 256 * ((x / 256) % 256) + 65536 * ((x / 65536) % 256) +
          16777216 * ((x / 16777216) % 256) := rfl
    rw [hd]
    omega

/-- Witness for C9 at concrete inputs. -/
theorem encode_usize_injective_witness :
    (7 : Nat) = 7 ∧ ∀ bs, encode_usize 7 = some bs → decode_le32 bs = 7 :=
  encode_usize_injective 7 7 (by decide) (by decide) rfl

theorem absorbBytes_nil (f : List Nat → List Nat) (s : Strobe128) :
    absorbBytes f s [] = s := rfl

theorem beginAbsorb_curOp (f : List Nat → List Nat) (op : OpType) (s : Strobe128) :
    (beginAbsorb f op s).curOp = op := by
  simp only [beginAbsorb]
  rw [absorbBytes_curOp]

theorem meta_ad_false_curOp (f : List Nat → List Nat) (s : Strobe128) (d : List Nat) :
    (Strobe128.meta_ad s f d false).curOp = OpType.metaAbsorb := by
  rw [meta_ad_false, absorbBytes_curOp, beginAbsorb_curOp]

theorem meta_ad_true_curOp (f : List Nat → List Nat) (s : Strobe128) (d : List Nat) :
    (Strobe128.meta_ad s f d true).curOp = s.curOp := by
  rw [meta_ad_true, absorbBytes_curOp]

theorem beginAbsorb_rateMeasure (f : List Nat → List Nat) (op : OpType)
    (s : Strobe128) (h : ¬ s.curOp = OpType.squeeze) :
    rateMeasure (beginAbsorb f op s) = rateMeasure s + 1 := by
  simp only [beginAbsorb, if_neg h]
  rw [absorbBytes_rateMeasure]
  rfl

theorem meta_ad_permCount_mono (f : List Nat → List Nat) (s : Strobe128)
    (data : List Nat) (more : Bool) :
    s.permCount ≤ (Strobe128.meta_ad s f data more).permCount := by
  cases more with
  | true => exact (absorbBytes_permCount f data s).1
  | false =>
    have h1 := (beginAbsorb_permCount f OpType.metaAbsorb s).1
    have h2 := (absorbBytes_permCount f data (beginAbsorb f OpType.metaAbsorb s)).1
    show s.permCount ≤ (absorbBytes f (beginAbsorb f OpType.metaAbsorb s) data).permCount
    omega

set_option maxHeartbeats 1600000 in
/-- C10: empty inputs are accepted at the public interface: commit with
an empty message (under any label, including the empty one) and
challenge with a zero-length output buffer complete without error —
length 0 satisfies the precondition and is encoded as the four zero
bytes — and still mutate the transcript state by absorbing the frame
and the 4-byte length encoding of zero (the resulting transcript never
equals the original). -/
theorem empty_inputs_accepted (f : List Nat → List Nat) (t : Transcript)
    (label : List Nat) :
    t.commit f label [] =
      some { strobe := (execCalls f t.strobe
        [EngineCall.metaAD label false, EngineCall.metaAD [0, 0, 0, 0] true,
         EngineCall.aD [] false]).1 } ∧
    t.commit f label [] ≠ some t ∧
    (∃ p, t.challenge f label 0 = some p ∧ p.2 = [] ∧ p.1 ≠ t) ∧
    encode_usize 0 = some [0, 0, 0, 0] := by
  have hc : t.commit f label [] =
      some { strobe := Strobe128.ad ((Strobe128.meta_ad t.strobe f label
        false).meta_ad f [0, 0, 0, 0] true) f [] false } := by
    simp [Transcript.commit, encode_usize]
  have hfirst : t.commit f label [] =
      some { strobe := (execCalls f t.strobe
        [EngineCall.metaAD label false, EngineCall.metaAD [0, 0, 0, 0] true,
         EngineCall.aD [] false]).1 } := by
    simp [Transcript.commit, encode_usize, execCalls, execCall]
  have hXcur : ((Strobe128.meta_ad t.strobe f label false).meta_ad f
      [0, 0, 0, 0] true).curOp = OpType.metaAbsorb := by
    rw [meta_ad_true_curOp, meta_ad_false_curOp]
  have hSne : Strobe128.ad ((Strobe128.meta_ad t.strobe f label false).meta_ad f
      [0, 0, 0, 0] true) f [] false ≠ t.strobe := by
    intro hEq
    rw [ad_false, absorbBytes_nil] at hEq
    have hS : beginAbsorb f OpType.dataAbsorb ((Strobe128.meta_ad t.strobe f
        label false).meta_ad f [0, 0, 0, 0] true) = t.strobe := hEq
    by_cases hsq : t.strobe.curOp = OpType.squeeze
    · have h1 := congrArg Strobe128.curOp hS
      rw [beginAbsorb_curOp, hsq] at h1
      cases h1
    · have h1 := congrArg rateMeasure hS
      rw [beginAbsorb_rateMeasure f OpType.dataAbsorb _
        (by rw [hXcur]; intro h2; cases h2)] at h1
      rw [meta_ad_true, absorbBytes_rateMeasure, meta_ad_false,
        absorbBytes_rateMeasure, beginAbsorb_rateMeasure f OpType.metaAbsorb
        t.strobe hsq] at h1
      simp only [List.length_cons, List.length_nil] at h1
      omega
  have hsecond : t.commit f label [] ≠ some t := by
    rw [hc]
    intro hEq
    exact hSne (congrArg Transcript.strobe (Option.some.inj hEq))
  have hch : t.challenge f label 0 =
      some ({ strobe := runF f (absorbBytes f
        { ((Strobe128.meta_ad t.strobe f label false).meta_ad f [0, 0, 0, 0]
            true) with curOp := OpType.squeeze } [frameByte OpType.squeeze]) },
        []) := by
    simp [Transcript.challenge, encode_usize, Strobe128.prf, squeezeBytes]
  have hchne : ({ strobe := runF f (absorbBytes f
      { ((Strobe128.meta_ad t.strobe f label false).meta_ad f [0, 0, 0, 0]
          true) with curOp := OpType.squeeze } [frameByte OpType.squeeze]) } :
        Transcript) ≠ t := by
    intro hEq
    have h1 := congrArg (fun u => u.strobe.permCount) hEq
    have h2 : (runF f (absorbBytes f
        { ((Strobe128.meta_ad t.strobe f label false).meta_ad f [0, 0, 0, 0]
            true) with curOp := OpType.squeeze }
          [frameByte OpType.squeeze])).permCount =
        (absorbBytes f
          { ((Strobe128.meta_ad t.strobe f label false).meta_ad f [0, 0, 0, 0]
              true) with curOp := OpType.squeeze }
            [frameByte OpType.squeeze]).permCount + 1 := rfl
    have h3 := (absorbBytes_permCount f [frameByte OpType.squeeze]
      { ((Strobe128.meta_ad t.strobe f label false).meta_ad f [0, 0, 0, 0]
          true) with curOp := OpType.squeeze }).1
    have h4 := meta_ad_permCount_mono f (Strobe128.meta_ad t.strobe f label
      false) [0, 0, 0, 0] true
    have h5 := meta_ad_permCount_mono f t.strobe label false
    simp only at h1
    rw [h2] at h1
    have h6 : ({ ((Strobe128.meta_ad t.strobe f label false).meta_ad f
        [0, 0, 0, 0] true) with curOp := OpType.squeeze } :
          Strobe128).permCount =
        ((Strobe128.meta_ad t.strobe f label false).meta_ad f [0, 0, 0, 0]
          true).permCount := rfl
    rw [h6] at h3
    omega
  exact ⟨hfirst, hsecond, ⟨_, hch, rfl, hchne⟩, by simp [encode_usize]⟩
